import Mathlib

/-!
# Verification of the `bw` bandwidth meter (src/cmd/bw.go)

A shallow embedding of the core of `bw.go`: the unit scaler
(`reducer`/`getUnits`), the read loop (`ReadData`), the aggregator's event
loop (`CalculateBandwidth`'s inner `select`), and an interleaving model of
the goroutine structure of `main`, together with theorems settling the
specification claims.

Go's `float64` arithmetic in the unit scaler is modelled with exact rational
arithmetic: every division performed by the scaler is a division by 1024
(a power of two), which is exact in binary floating point, so the rational
model agrees with the compiled code everywhere except for the rounding of
the initial `int64` → `float64` conversion, which is modelled as exact.
-/

namespace BW

/-- Go: `const nextStep = 1024` (bw.go line 18). -/
def nextStep : ℤ := 1024

/-- Go: the `descs` slice of unit labels (bw.go lines 29-36). -/
def descs : List String := ["B", "KB", "MB", "GB", "TB", "PB"]

/-- Go: `type unit struct { count float64; desc string }` (bw.go lines 22-25). -/
structure unit where
  count : ℚ
  desc : String
  deriving DecidableEq, Repr

/-- Go: `reducer` (bw.go lines 209-221).  Repeatedly divides `remCount` by
1024, advancing `descIdx`, until `remCount < float64(nextStep)`; then returns
`unit{count: remCount, desc: descs[descIdx]}`.  The Go code performs no bound
check on `descIdx` (its own comment says `Not checking for descIdx < descs
here`), so `descs[descIdx]` panics with an index-out-of-range error when
`descIdx ≥ len(descs)`; the panic is modelled by `none` via `descs[descIdx]?`. -/
def reducer (remCount : ℚ) (descIdx : ℕ) : Option unit :=
  if h : remCount < (nextStep : ℚ) then
    (descs[descIdx]?).map fun d => { count := remCount, desc := d }
  else
    reducer (remCount / (nextStep : ℚ)) (descIdx + 1)
termination_by (⌊remCount⌋).toNat
decreasing_by
  have h1 : ((nextStep : ℤ) : ℚ) = (1024 : ℚ) := by norm_num [nextStep]
  rw [h1] at h
  have h2 : (1024 : ℚ) ≤ remCount := not_lt.mp h
  have h3 : remCount / (1024 : ℚ) ≤ remCount - 1023 := by linarith
  have h4 : ⌊remCount - ((1023 : ℤ) : ℚ)⌋ = ⌊remCount⌋ - 1023 := Int.floor_sub_int remCount 1023
  have h5 : ⌊remCount / ((nextStep : ℤ) : ℚ)⌋ < ⌊remCount⌋ := by
    rw [h1]
    calc ⌊remCount / (1024 : ℚ)⌋ ≤ ⌊remCount - 1023⌋ := Int.floor_le_floor h3
    _ = ⌊remCount⌋ - 1023 := by
        have : remCount - ((1023 : ℤ) : ℚ) = remCount - 1023 := by norm_num
        rw [← this, h4]
    _ < ⌊remCount⌋ := by omega
  have h6 : (1024 : ℤ) ≤ ⌊remCount⌋ := by
    have : ((1024 : ℤ) : ℚ) ≤ remCount := by exact_mod_cast h2
    exact Int.le_floor.mpr this
  omega

/-- Go: `getUnits` (bw.go lines 229-231); the `int64` → `float64` conversion
`float64(count)` is modelled as the exact cast `ℤ → ℚ`. -/
def getUnits (count : ℤ) : Option unit := reducer (count : ℚ) 0

/-- Unfolding `reducer` in the terminating branch. -/
theorem reducer_lt (remCount : ℚ) (descIdx : ℕ) (h : remCount < 1024) :
    reducer remCount descIdx =
      (descs[descIdx]?).map fun d => { count := remCount, desc := d } := by
  rw [reducer]
  have h1 : ((nextStep : ℤ) : ℚ) = (1024 : ℚ) := by norm_num [nextStep]
  rw [h1]
  simp [h]

/-- Unfolding `reducer` in the recursive branch. -/
theorem reducer_ge (remCount : ℚ) (descIdx : ℕ) (h : (1024 : ℚ) ≤ remCount) :
    reducer remCount descIdx = reducer (remCount / 1024) (descIdx + 1) := by
  rw [reducer]
  have h1 : ((nextStep : ℤ) : ℚ) = (1024 : ℚ) := by norm_num [nextStep]
  rw [h1]
  simp [not_lt.mpr h]

/-- Once `descIdx` is past the end of `descs`, `reducer` can only end in the
out-of-range access (modelled as `none`). -/
theorem reducer_none_of_ge_length (remCount : ℚ) (descIdx : ℕ)
    (h : descs.length ≤ descIdx) : reducer remCount descIdx = none := by
  by_cases hlt : remCount < 1024
  · rw [reducer_lt _ _ hlt, List.getElem?_eq_none h]
    rfl
  · rw [reducer_ge _ _ (not_lt.mp hlt)]
    exact reducer_none_of_ge_length _ _ (le_trans h (Nat.le_succ _))
termination_by (⌊remCount⌋).toNat
decreasing_by
  have h2 : (1024 : ℚ) ≤ remCount := not_lt.mp hlt
  have h3 : remCount / (1024 : ℚ) ≤ remCount - 1023 := by linarith
  have h4 : ⌊remCount - ((1023 : ℤ) : ℚ)⌋ = ⌊remCount⌋ - 1023 := Int.floor_sub_int remCount 1023
  have h5 : ⌊remCount / (1024 : ℚ)⌋ < ⌊remCount⌋ := by
    calc ⌊remCount / (1024 : ℚ)⌋ ≤ ⌊remCount - 1023⌋ := Int.floor_le_floor h3
    _ = ⌊remCount⌋ - 1023 := by
        have h0 : remCount - ((1023 : ℤ) : ℚ) = remCount - 1023 := by norm_num
        rw [← h0, h4]
    _ < ⌊remCount⌋ := by omega
  have h6 : (1024 : ℤ) ≤ ⌊remCount⌋ := by
    have : ((1024 : ℤ) : ℚ) ≤ remCount := by exact_mod_cast h2
    exact Int.le_floor.mpr this
  omega

/-- A count of at least `1024 ^ d`, started at unit index `descs.length - d`,
drives the recursion past the last label: the result is the out-of-range
access (`none`), never a clamped `PB` value. -/
theorem reducer_none_of_pow_le :
    ∀ (d descIdx : ℕ) (q : ℚ), descIdx + d = descs.length →
      (1024 : ℚ) ^ d ≤ q → reducer q descIdx = none := by
  intro d
  induction d with
  | zero =>
    intro descIdx q hlen _
    exact reducer_none_of_ge_length q descIdx (by omega)
  | succ d ih =>
    intro descIdx q hlen hq
    have hone : (1024 : ℚ) ≤ (1024 : ℚ) ^ (d + 1) := by
      calc (1024 : ℚ) = 1024 ^ 1 := (pow_one _).symm
      _ ≤ 1024 ^ (d + 1) := by
          apply pow_le_pow_right₀ (by norm_num)
          omega
    have hge : (1024 : ℚ) ≤ q := le_trans hone hq
    rw [reducer_ge _ _ hge]
    apply ih (descIdx + 1) (q / 1024) (by omega)
    rw [le_div_iff₀ (by norm_num : (0 : ℚ) < 1024)]
    calc (1024 : ℚ) ^ d * 1024 = 1024 ^ (d + 1) := (pow_succ _ _).symm
    _ ≤ q := hq

/-- For a count small enough to stay inside the label list, `reducer` returns
the count divided by `1024 ^ j` under the label at index `j`, with the scaled
value below 1024. -/
theorem reducer_spec :
    ∀ (d descIdx : ℕ) (q : ℚ), 0 ≤ q → descIdx + d = descs.length → 1 ≤ d →
      q < (1024 : ℚ) ^ d →
      ∃ (j : ℕ) (hj : j < descs.length), descIdx ≤ j ∧
        reducer q descIdx =
          some { count := q / 1024 ^ (j - descIdx), desc := descs.get ⟨j, hj⟩ } ∧
        q / 1024 ^ (j - descIdx) < 1024 := by
  intro d
  induction d with
  | zero =>
    intro descIdx q _ _ hd _
    omega
  | succ d ih =>
    intro descIdx q hq0 hlen _ hqlt
    by_cases hlt : q < 1024
    · have hj : descIdx < descs.length := by omega
      refine ⟨descIdx, hj, le_refl _, ?_, ?_⟩
      · rw [reducer_lt _ _ hlt, List.getElem?_eq_getElem hj]
        simp [List.get_eq_getElem]
      · simpa using hlt
    · have hge : (1024 : ℚ) ≤ q := not_lt.mp hlt
      have hd1 : 1 ≤ d := by
        by_contra hd0
        have hd0' : d = 0 := by omega
        rw [hd0', pow_one] at hqlt
        exact hlt hqlt
      have hdiv0 : (0 : ℚ) ≤ q / 1024 := by positivity
      have hdivlt : q / 1024 < (1024 : ℚ) ^ d := by
        rw [div_lt_iff₀ (by norm_num : (0 : ℚ) < 1024)]
        calc q < 1024 ^ (d + 1) := hqlt
        _ = 1024 ^ d * 1024 := pow_succ _ _
      obtain ⟨j, hj, hle, heq, hlt'⟩ := ih (descIdx + 1) (q / 1024) hdiv0 (by omega) hd1 hdivlt
      have hsub : j - descIdx = (j - (descIdx + 1)) + 1 := by omega
      have harith : q / 1024 / 1024 ^ (j - (descIdx + 1)) = q / 1024 ^ (j - descIdx) := by
        rw [div_div, hsub, pow_succ]
        ring_nf
      refine ⟨j, hj, by omega, ?_, ?_⟩
      · rw [reducer_ge _ _ hge, heq, harith]
      · rw [← harith]
        exact hlt'

/-- C3 counterexample: at the concrete count `1024 ^ 6` (which fits in
`int64`), the recursion reaches unit index 6 = `len(descs)` and performs the
out-of-range access `descs[6]` (modelled as `none`): the Unit Scaler does not
clamp to `PB`. -/
theorem getUnits_pb_overflow : getUnits ((1024 : ℤ) ^ 6) = none := by
  unfold getUnits
  apply reducer_none_of_pow_le 6 0 _ rfl
  push_cast
  norm_num

/-- C3 (amended): for every non-negative byte count strictly below `1024 ^ 6`,
the Unit Scaler returns a result without indexing past the end of the unit
label list; counts of `1024 ^ 6` and above are not clamped to `PB` but hit the
out-of-range access. -/
theorem getUnits_safe_below_overflow (c : ℤ) (h0 : 0 ≤ c) (h : c < 1024 ^ 6) :
    (getUnits c).isSome = true := by
  obtain ⟨j, hj, _, heq, _⟩ :=
    reducer_spec 6 0 (c : ℚ) (by exact_mod_cast h0) rfl (by omega)
      (by exact_mod_cast h)
  unfold getUnits
  rw [heq]
  rfl

/-- Witness for `getUnits_safe_below_overflow` at the concrete count 5000. -/
theorem getUnits_safe_below_overflow_witness : (getUnits 5000).isSome = true :=
  getUnits_safe_below_overflow 5000 (by norm_num) (by norm_num)

/-- C4 counterexample: at the concrete count `2 ^ 62` (a valid `int64`),
`getUnits` returns no (value, unit) pair at all — the recursion runs past the
last label and performs an out-of-range access (modelled as `none`) — so the
claimed round-trip property fails: there is no returned pair, with or without
a `PB` clamp. -/
theorem getUnits_no_pair_at_large : getUnits ((2 : ℤ) ^ 62) = none := by
  unfold getUnits
  apply reducer_none_of_pow_le 6 0 _ rfl
  push_cast
  norm_num

/-- C4 (amended): for every non-negative byte count strictly below `1024 ^ 6`,
`getUnits` returns a pair (value, unit label at index `j`) with
`value * 1024 ^ j` exactly equal to the count (in the exact-rational model of
the scaler's float arithmetic) and `0 ≤ value < 1024`; for counts of
`1024 ^ 6` and above no pair is returned at all (out-of-range access), rather
than a `PB` pair with value ≥ 1024. -/
theorem getUnits_roundtrip (c : ℤ) (h0 : 0 ≤ c) (h : c < 1024 ^ 6) :
    ∃ (j : ℕ) (hj : j < descs.length),
      getUnits c = some { count := (c : ℚ) / 1024 ^ j, desc := descs.get ⟨j, hj⟩ } ∧
      0 ≤ (c : ℚ) / 1024 ^ j ∧ (c : ℚ) / 1024 ^ j < 1024 ∧
      ((c : ℚ) / 1024 ^ j) * 1024 ^ j = (c : ℚ) := by
  obtain ⟨j, hj, _, heq, hlt⟩ :=
    reducer_spec 6 0 (c : ℚ) (by exact_mod_cast h0) rfl (by omega)
      (by exact_mod_cast h)
  refine ⟨j, hj, ?_, ?_, ?_, ?_⟩
  · unfold getUnits
    rw [heq]
    simp
  · have hc : (0 : ℚ) ≤ (c : ℚ) := by exact_mod_cast h0
    positivity
  · simpa using hlt
  · exact div_mul_cancel₀ _ (by positivity)

/-- Witness for `getUnits_roundtrip` at the concrete count 2048. -/
theorem getUnits_roundtrip_witness :
    ∃ (j : ℕ) (hj : j < descs.length),
      getUnits 2048 = some { count := ((2048 : ℤ) : ℚ) / 1024 ^ j, desc := descs.get ⟨j, hj⟩ } ∧
      0 ≤ ((2048 : ℤ) : ℚ) / 1024 ^ j ∧ ((2048 : ℤ) : ℚ) / 1024 ^ j < 1024 ∧
      (((2048 : ℤ) : ℚ) / 1024 ^ j) * 1024 ^ j = ((2048 : ℤ) : ℚ) :=
  getUnits_roundtrip 2048 (by norm_num) (by norm_num)

/-- C10: every count strictly below 1024 — zero and negative counts
included — is returned unscaled with the label `"B"`: the first guard
`remCount < float64(nextStep)` is already true at unit index 0, so no
division is performed. -/
theorem getUnits_below_kb (c : ℤ) (h : c < 1024) :
    getUnits c = some { count := (c : ℚ), desc := "B" } := by
  unfold getUnits
  rw [reducer_lt _ _ (by exact_mod_cast h)]
  rfl

/-- Witness for `getUnits_below_kb` at the concrete count -7. -/
theorem getUnits_below_kb_witness :
    getUnits (-7) = some { count := ((-7 : ℤ) : ℚ), desc := "B" } :=
  getUnits_below_kb (-7) (by norm_num)

set_option linter.unusedVariables false in
/-- Go: the per-iteration requested chunk size in `ReadData` (bw.go lines
157-158): `bufSize := nextStep * nextStep * int64(r)` immediately followed by
the overwrite `bufSize = 409500`, so the hint `r` is dead. -/
def bufSizeFor (r : ℤ) : ℤ :=
  let bufSize := nextStep * nextStep * r
  let bufSize := (409500 : ℤ)
  bufSize

/-- C6: every read attempt requests exactly 409500 bytes; the pre-validated
chunk-size hint `r` never influences the requested chunk size. -/
theorem bufSize_ignores_hint : ∀ r : ℤ, bufSizeFor r = 409500 := fun _ => rfl

set_option linter.unusedVariables false in
/-- Go: the read loop of `ReadData` (bw.go lines 152-165), over a source that
delivers `avail` bytes in total and then reports end-of-stream, with the
context never cancelled (so the `select` always takes the `default` branch).
`io.CopyN(rw, rw, bufSize)` copies `min avail bufSize` bytes and returns a
non-nil error (`io.EOF`) exactly when it copied fewer than `bufSize` bytes;
in that case `ReadData` executes `return err` *before* the send
`bRead <- int64(n)`, so the partially-copied count is never emitted and the
loop ends (every uncancelled run exits through this `return err`).  The
result is the list of byte counts sent on `bRead`, in order. -/
def ReadData (r : ℤ) (avail : ℕ) : List ℕ :=
  if h : avail < (bufSizeFor r).toNat then
    []
  else
    let n := (bufSizeFor r).toNat
    n :: ReadData r (avail - n)
termination_by avail
decreasing_by
  have hb : (bufSizeFor r).toNat = 409500 := rfl
  omega

/-- C5: at the spec's example input — a source yielding chunks of 1000, 2000
and 500 bytes (3500 bytes in total) followed by end-of-stream — `ReadData`
emits no byte count at all: `io.CopyN` returns the 3500 copied bytes together
with `io.EOF`, and `ReadData` returns the error without sending the count, so
the aggregator's total stays 0 rather than reaching 3500. -/
theorem ReadData_drops_partial_read : ReadData 1 3500 = [] := by
  rw [ReadData]
  rfl

/-- An event consumed by the aggregator's `select` loop: a value received on
`bRead`, or the 1-second ticker firing. -/
inductive Event
  | byteCount (n : ℤ)
  | tick
  deriving DecidableEq, Repr

/-- The aggregator's mutable counters (bw.go lines 175-176): `total` and
`prevSecond` (the per-second window count). -/
structure RunState where
  total : ℤ
  prevSecond : ℤ
  deriving DecidableEq, Repr

/-- Go: one iteration of the `select` loop inside `CalculateBandwidth`
(bw.go lines 183-195).  A received byte count is added to both counters; a
tick renders the current and average rates (reading both counters, changing
neither `total`) and then resets `prevSecond` to 0. -/
def handleEvent (s : RunState) : Event → RunState
  | .byteCount n => { total := s.total + n, prevSecond := s.prevSecond + n }
  | .tick => { s with prevSecond := 0 }

/-- The aggregator's event loop: the events arrive one at a time on the single
`select` point and are folded over the state. -/
def runEvents (s : RunState) (es : List Event) : RunState := es.foldl handleEvent s

/-- The sum of the byte-count values carried by a list of events. -/
def byteSum (es : List Event) : ℤ :=
  (es.map fun e => match e with | .byteCount n => n | .tick => 0).sum

/-- `runEvents` adds exactly the byte-count sum to `total`, from any start. -/
theorem runEvents_total (es : List Event) :
    ∀ s : RunState, (runEvents s es).total = s.total + byteSum es := by
  induction es with
  | nil => intro s; simp [runEvents, byteSum]
  | cons e es ih =>
    intro s
    cases e with
    | byteCount n =>
      have h := ih { total := s.total + n, prevSecond := s.prevSecond + n }
      simp only [runEvents, List.foldl_cons, handleEvent] at h ⊢
      rw [h]
      simp [byteSum]
      ring
    | tick =>
      have h := ih { s with prevSecond := 0 }
      simp only [runEvents, List.foldl_cons, handleEvent] at h ⊢
      rw [h]
      simp [byteSum]

/-- C7: starting from the aggregator's initial state (`total = 0`), after any
sequence of events is processed, `total` equals the exact arithmetic sum of
the byte-count values received: none is dropped, none is counted twice. -/
theorem total_is_exact_sum (es : List Event) :
    (runEvents { total := 0, prevSecond := 0 } es).total = byteSum es := by
  rw [runEvents_total]
  ring

/-- C8: processing a tick leaves `prevSecond` equal to 0, whatever its value
before the tick, and leaves `total` unchanged. -/
theorem tick_resets_window (s : RunState) :
    (handleEvent s Event.tick).prevSecond = 0 ∧
    (handleEvent s Event.tick).total = s.total :=
  ⟨rfl, rfl⟩

/-- Control location of the main goroutine (which runs `ReadData` inline,
bw.go lines 128-133): inside the read loop; blocked on `bRead <- n`; blocked
on `<-ctx.Done()` after `ReadData` returned an error; about to call
`os.Exit(0)`; terminated. -/
inductive MainPhase
  | reading
  | sending (n : ℤ)
  | waitingDone
  | readyExit
  | exited
  deriving DecidableEq, Repr

/-- Control location of the outer `CalculateBandwidth` goroutine (bw.go lines
199-206): blocked on `<-ctx.Done()`; woken with the snapshot of `total` it
read for `getUnits(total)`; final summary printed. -/
inductive AggPhase
  | waitingCancel
  | rendering (snap : ℤ)
  | printed
  deriving DecidableEq, Repr

/-- The interleaving state of the process: the `context.WithCancel` flag, the
two control locations above, the aggregator counters owned by the inner
`select` goroutine (bw.go lines 181-197), and what the final summary printed.
`os.Exit(0)` terminates every goroutine, so no action is enabled once
`mainPhase = exited`. -/
structure Sys where
  cancelled : Bool
  mainPhase : MainPhase
  aggPhase : AggPhase
  total : ℤ
  prevSecond : ℤ
  printedFinal : Bool
  printedTotal : Option ℤ
  deriving DecidableEq, Repr

/-- One atomic step of one goroutine, as in bw.go:
* `sigint` — the signal goroutine receives SIGINT/SIGTERM and calls `cancel()`
  (lines 121-124), the only call to `cancel` in the program;
* `readErr` — `io.CopyN` returns a non-nil error and `ReadData` returns it,
  so `main` enters `<-ctx.Done()` (lines 159-162, 128-130);
* `readCancel` — `ReadData`'s `select` sees `ctx.Done()` and returns `nil`,
  so `main` skips the wait and proceeds to `os.Exit(0)` (lines 154-155, 132);
* `readSend` — a full 409500-byte copy succeeds and `ReadData` blocks on
  `bRead <- int64(n)` (line 163);
* `innerRecv` — the inner `select` goroutine receives the pending count:
  `total += n; prevSecond += n` (lines 184-186), unblocking the sender;
* `innerTick` — the ticker fires: the rate lines are printed and
  `prevSecond = 0` (lines 187-194); the inner loop has no cancellation case,
  so this and `innerRecv` stay enabled after `cancel()`;
* `aggWake` — the outer goroutine's `<-ctx.Done()` returns and it reads
  `total` for the final `getUnits(total)` (lines 199-201);
* `aggPrintFinal` — the final summary line is printed from that snapshot
  (lines 202-205);
* `mainWake` — `main`'s `<-ctx.Done()` returns (line 129);
* `mainExit` — `os.Exit(0)` (line 132). -/
inductive Action
  | sigint
  | readErr
  | readCancel
  | readSend
  | innerRecv
  | innerTick
  | aggWake
  | aggPrintFinal
  | mainWake
  | mainExit
  deriving DecidableEq, Repr

/-- The (partial) transition function: `none` when the action is not enabled
in the given state. -/
def stepFn (s : Sys) (a : Action) : Option Sys :=
  if s.mainPhase = MainPhase.exited then none
  else
    match a with
    | .sigint => if s.cancelled then none else some { s with cancelled := true }
    | .readErr =>
        if s.mainPhase = MainPhase.reading then
          some { s with mainPhase := MainPhase.waitingDone }
        else none
    | .readCancel =>
        if s.mainPhase = MainPhase.reading ∧ s.cancelled then
          some { s with mainPhase := MainPhase.readyExit }
        else none
    | .readSend =>
        if s.mainPhase = MainPhase.reading ∧ ¬s.cancelled then
          some { s with mainPhase := MainPhase.sending 409500 }
        else none
    | .innerRecv =>
        match s.mainPhase with
        | MainPhase.sending n =>
            some { s with mainPhase := MainPhase.reading,
                          total := s.total + n, prevSecond := s.prevSecond + n }
        | _ => none
    | .innerTick => some { s with prevSecond := 0 }
    | .aggWake =>
        if s.cancelled ∧ s.aggPhase = AggPhase.waitingCancel then
          some { s with aggPhase := AggPhase.rendering s.total }
        else none
    | .aggPrintFinal =>
        match s.aggPhase with
        | AggPhase.rendering snap =>
            some { s with aggPhase := AggPhase.printed,
                          printedFinal := true, printedTotal := some snap }
        | _ => none
    | .mainWake =>
        if s.mainPhase = MainPhase.waitingDone ∧ s.cancelled then
          some { s with mainPhase := MainPhase.readyExit }
        else none
    | .mainExit =>
        if s.mainPhase = MainPhase.readyExit then
          some { s with mainPhase := MainPhase.exited }
        else none

/-- Run a sequence of scheduled actions from a state; `none` if some action in
the sequence is not enabled where it occurs (i.e. the sequence is not a valid
schedule). -/
def run (s : Sys) : List Action → Option Sys
  | [] => some s
  | a :: acts =>
    match stepFn s a with
    | some s2 => run s2 acts
    | none => none

/-- The state of the process right after `app.Run` succeeds (bw.go lines
110-127): nothing cancelled, `main` inside `ReadData`, both aggregator
goroutines started, counters zero, nothing printed. -/
def initSys : Sys :=
  { cancelled := false, mainPhase := MainPhase.reading,
    aggPhase := AggPhase.waitingCancel, total := 0, prevSecond := 0,
    printedFinal := false, printedTotal := none }

/-- C1: a valid schedule of the program in which the process terminates with
the final summary never printed: SIGINT arrives, `ReadData` observes the
cancelled context and returns `nil`, and `main` reaches `os.Exit(0)` before
the outer `CalculateBandwidth` goroutine (still blocked on `<-ctx.Done()`)
ever runs again — nothing in `main` waits for the final print, so process
exit does not always happen after the summary. -/
theorem exit_can_precede_final_print :
    ∃ s : Sys,
      run initSys [Action.sigint, Action.readCancel, Action.mainExit] = some s ∧
      s.mainPhase = MainPhase.exited ∧ s.printedFinal = false := by
  refine ⟨_, rfl, rfl, rfl⟩

/-- The inductive invariant of every SIGINT-free schedule: `cancel()` has not
been called, hence the final summary machinery has not moved and `main`
cannot have passed `<-ctx.Done()`. -/
def NoSignalInv (s : Sys) : Prop :=
  s.cancelled = false ∧ s.printedFinal = false ∧
  s.aggPhase = AggPhase.waitingCancel ∧
  s.mainPhase ≠ MainPhase.exited ∧ s.mainPhase ≠ MainPhase.readyExit

theorem noSignalInv_step (s s2 : Sys) (a : Action) (ha : a ≠ Action.sigint)
    (hinv : NoSignalInv s) (hstep : stepFn s a = some s2) : NoSignalInv s2 := by
  obtain ⟨hc, hp, hagg, hm1, hm2⟩ := hinv
  cases a
  case sigint => exact absurd rfl ha
  all_goals simp only [stepFn] at hstep
  all_goals repeat' split at hstep
  all_goals cases hstep
  all_goals simp_all [NoSignalInv]

theorem noSignalInv_run (acts : List Action) :
    ∀ s s2 : Sys, Action.sigint ∉ acts → NoSignalInv s →
      run s acts = some s2 → NoSignalInv s2 := by
  induction acts with
  | nil =>
    intro s s2 _ hinv hrun
    simp only [run] at hrun
    cases hrun
    exact hinv
  | cons a acts ih =>
    intro s s2 hmem hinv hrun
    simp only [run] at hrun
    have ha : a ≠ Action.sigint := by
      intro h
      exact hmem (h ▸ List.mem_cons_self a acts)
    have hmem2 : Action.sigint ∉ acts := fun h => hmem (List.mem_cons_of_mem a h)
    cases hstep : stepFn s a with
    | none => rw [hstep] at hrun; exact absurd hrun (by simp)
    | some smid =>
        rw [hstep] at hrun
        exact ih smid s2 hmem2 (noSignalInv_step s smid a ha hinv hstep) hrun

/-- C2: a read failure alone does not trigger the shutdown sequence.  In the
program, `cancel()` is called only by the signal goroutine, so along every
valid schedule with no SIGINT — in particular any schedule in which
`ReadData` stops with a read error — the context is never cancelled, the
aggregator never leaves `Running` (never reaches its final print), and the
process does not even exit: `main` blocks forever in `<-ctx.Done()`. -/
theorem no_final_summary_without_signal (acts : List Action) (s : Sys)
    (hmem : Action.sigint ∉ acts) (hrun : run initSys acts = some s) :
    s.printedFinal = false ∧ s.cancelled = false ∧
    s.mainPhase ≠ MainPhase.exited := by
  have hinv : NoSignalInv s :=
    noSignalInv_run acts initSys s hmem (by simp [NoSignalInv, initSys]) hrun
  exact ⟨hinv.2.1, hinv.1, hinv.2.2.2.1⟩

/-- Witness for `no_final_summary_without_signal`: the schedule in which
`ReadData` hits a read error (e.g. end-of-stream) and nothing else happens. -/
theorem no_final_summary_without_signal_witness :
    ({ cancelled := false, mainPhase := MainPhase.waitingDone,
       aggPhase := AggPhase.waitingCancel, total := 0, prevSecond := 0,
       printedFinal := false, printedTotal := none } : Sys).printedFinal = false ∧
    ({ cancelled := false, mainPhase := MainPhase.waitingDone,
       aggPhase := AggPhase.waitingCancel, total := 0, prevSecond := 0,
       printedFinal := false, printedTotal := none } : Sys).cancelled = false ∧
    ({ cancelled := false, mainPhase := MainPhase.waitingDone,
       aggPhase := AggPhase.waitingCancel, total := 0, prevSecond := 0,
       printedFinal := false, printedTotal := none } : Sys).mainPhase ≠ MainPhase.exited :=
  no_final_summary_without_signal [Action.readErr] _ (by decide) rfl

/-- C9 counterexample: a valid schedule in which ByteCount handling mutates
`total` in between the final-summary rendering's read of `total` and its
print.  `ReadData` blocks sending 409500 on `bRead`; SIGINT cancels; the
outer goroutine wakes and reads `total = 0` for `getUnits(total)`; the inner
`select` loop — which has no cancellation case and is still running — then
receives the pending count and mutates `total`; the summary finally prints
the stale snapshot 0 while `total = 409500`.  The cancellation-triggered
rendering is therefore not mutually exclusive with ByteCount handling. -/
theorem final_render_races_byteCount :
    ∃ s : Sys,
      run initSys [Action.readSend, Action.sigint, Action.aggWake,
                   Action.innerRecv, Action.aggPrintFinal] = some s ∧
      s.printedFinal = true ∧ s.printedTotal = some 0 ∧ s.total = 409500 := by
  refine ⟨_, rfl, rfl, rfl, rfl⟩

/-- C9 (amended): ByteCount handling and Tick handling are serialized — they
are the only transitions that touch `total`/`prevSecond`, and both live on the
single inner `select` goroutine — but the cancellation-triggered final-summary
rendering is *not* serialized with them: the inner loop keeps running after
`cancel()`, so a ByteCount can mutate `total` between the rendering's read of
`total` and its print. -/
theorem runState_touched_only_by_select_loop (s s2 : Sys) (a : Action)
    (hstep : stepFn s a = some s2)
    (hmut : s2.total ≠ s.total ∨ s2.prevSecond ≠ s.prevSecond) :
    a = Action.innerRecv ∨ a = Action.innerTick := by
  cases a
  case innerRecv => exact Or.inl rfl
  case innerTick => exact Or.inr rfl
  all_goals simp only [stepFn] at hstep
  all_goals repeat' split at hstep
  all_goals cases hstep
  all_goals simp_all

/-- Witness for `runState_touched_only_by_select_loop`: a tick that resets a
non-zero `prevSecond`. -/
theorem runState_touched_only_by_select_loop_witness :
    Action.innerTick = Action.innerRecv ∨ Action.innerTick = Action.innerTick :=
  runState_touched_only_by_select_loop
    { cancelled := false, mainPhase := MainPhase.reading,
      aggPhase := AggPhase.waitingCancel, total := 0, prevSecond := 5,
      printedFinal := false, printedTotal := none }
    { cancelled := false, mainPhase := MainPhase.reading,
      aggPhase := AggPhase.waitingCancel, total := 0, prevSecond := 0,
      printedFinal := false, printedTotal := none }
    Action.innerTick rfl (Or.inr (by decide))

end BW
